import Mathlib

/-!
# Verification of the pigdo reassembly engine

A shallow embedding of the core of pigdo (parallel jigsaw download) in Lean 4,
together with theorems checking the natural-language specification against the
code.  The embedding follows the C sources:

* `src/worker.c` / `src/pigdo.c` — part-status table (`partsRemain`,
  `selectChunk`) and the fetch worker (`fetch_worker`);
* `src/libigdo/jigdo-template.c` — the DESC-table parser
  (`freadTemplateDesc`), the little-endian decoder
  (`readLittleEndianValue`), and the glue writer (`writeDataFromTemplate`);
* `src/libigdo/jigdo-md5.c` — `md5Cmp` (a `memcmp` over the 16 digest bytes);
* `src/pigdo.c` — the reverse-size comparator `fileRevSizeCmp`.

Machine integers are modelled as `Nat` with explicit `% 2^64` where the C
computation is performed in `uint64_t`; a C `_Bool` assignment from an `int`
is modelled by `≠ 0`.  Files and memory buffers are byte lists (`List Nat`,
each cell read as a `uint8_t`, i.e. modulo 256).  The pthread mutex
lock/unlock calls are modelled as succeeding; the failure paths they guard
are annotated where they matter.
-/

namespace Pigdo

/-- `commitStatus` from `src/libigdo/jigdo-template.h` (values 0..6 in
declaration order; `memset 0` initialises a part to `notStarted`). -/
inductive commitStatus where
  | notStarted
  | assigned
  | inProgress
  | complete
  | error
  | fatalError
  | localCopy
deriving DecidableEq, Repr

/-- A `templateFileEntry` (`struct _templateFile`): one file part of the
image.  The MD5 digest is kept as its 16 raw bytes, matching the memory
layout that `md5Cmp` compares with `memcmp`. -/
structure templateFileEntry where
  size : Nat
  offset : Nat
  rsync64SumInitialBlock : Nat
  md5Sum : List Nat
  status : commitStatus
deriving DecidableEq, Repr

/-- A `templateDataEntry` (`struct _templateData`): one glue-data block. -/
structure templateDataEntry where
  size : Nat
  offset : Nat
deriving DecidableEq, Repr

/-- `struct _templateImageInfo`: the image summary record. -/
structure templateImageInfoEntry where
  size : Nat
  md5Sum : List Nat
  rsync64SumBlockLen : Nat
deriving DecidableEq, Repr

/-- `struct _templateDescTable` (the `md5String` cache field and the file
pointers are irrelevant to the claims and omitted). -/
structure templateDescTable where
  imageInfo : templateImageInfoEntry
  dataBlocks : List templateDataEntry
  files : List templateFileEntry
  existingFile : Bool
deriving DecidableEq, Repr

/-- The `memset(table, 0, sizeof(*table))` initial state of
`freadTemplateDesc`: all counters zero, digest bytes zero. -/
def emptyDescTable : templateDescTable :=
  { imageInfo := { size := 0, md5Sum := List.replicate 16 0, rsync64SumBlockLen := 0 }
    dataBlocks := []
    files := []
    existingFile := false }

/-! ## Part-status table (`src/worker.c` 41-80 / `src/pigdo.c` 48-87) -/

/-- C conversion of an `int` value to `_Bool`: nonzero becomes `true`.
`partsRemain` declares `bool ret = 0;` and then assigns the `int`
literals `-1` and `1` to it. -/
def cBool (v : Int) : Bool := v ≠ 0

/-- The scan loop of `partsRemain`: `for (i = *beginComplete; i < count - 1;
i++)`.  Returns the final value of `ret` (a C `_Bool`) and of
`*beginComplete`.  Note the loop bound `count - 1`: the last element of
`files` is never examined. -/
def partsRemainAux (files : List commitStatus) (beginComplete : Nat) (i : Nat) :
    Bool × Nat :=
  if i + 1 < files.length then
    match files.getD i .notStarted with
    | .fatalError => (cBool (-1), beginComplete)
    | .complete => partsRemainAux files i (i + 1)
    | _ => (cBool 1, beginComplete)
  else
    (false, beginComplete)
termination_by files.length - i

/-- `partsRemain` from `src/worker.c`/`src/pigdo.c`, with the two
`pthread_mutex` calls modelled as succeeding.  The C return value is the
`_Bool` variable `ret` implicitly converted back to `int`, hence always
`0` or `1`.  Also returns the updated `*beginComplete`. -/
def partsRemain (files : List commitStatus) (beginComplete : Nat) : Int × Nat :=
  let r := partsRemainAux files beginComplete beginComplete
  ((if r.1 then 1 else 0), r.2)

/-- `isWaitingFileNoMutex`: a part is eligible for assignment when its
status is `NOT_STARTED`, `ERROR` or `LOCAL_COPY`. -/
def isWaitingFileNoMutex (s : commitStatus) : Bool :=
  s == .notStarted || s == .error || s == .localCopy

/-- The scan `for (i = 0; i < count && !isWaitingFileNoMutex(files + i); i++);`
of `selectChunk`: index of the first eligible part, or `files.length` when
none is eligible. -/
def selectChunkScan : List commitStatus → Nat
  | [] => 0
  | s :: rest => if isWaitingFileNoMutex s then 0 else selectChunkScan rest + 1

/-- `selectChunk` from `src/worker.c` 152-175 / `src/pigdo.c` 159-182.
After the scan the C code stores `files[i].status = COMMIT_STATUS_ASSIGNED`
unconditionally and only afterwards tests `i == count`.  The result is the
returned chunk index (`none` models the `NULL` return), the array contents
(a store one past the end does not change any element), and a flag that is
`true` exactly when that store happened at index `count`, outside the
array. -/
def selectChunk (files : List commitStatus) :
    Option Nat × List commitStatus × Bool :=
  let i := selectChunkScan files
  let files2 := files.set i .assigned
  if i = files.length then (none, files2, true) else (some i, files2, false)

/-! ## MD5 comparison and the fetch worker (`src/worker.c` 208-254) -/

/-- `md5Cmp` (`src/libigdo/jigdo-md5.c` 168-171): `memcmp` over the 16
digest bytes — `0` on equality, otherwise the difference at the first
differing byte.  Both arguments always have length 16 in the program, so
the mismatched-length clauses are unreachable. -/
def md5Cmp : List Nat → List Nat → Int
  | [], _ => 0
  | _ :: _, [] => 0
  | a :: as, b :: bs => if a = b then md5Cmp as bs else (a : Int) - (b : Int)

/-- `verifyChunkMD5`: hash `chunk.size` bytes at `buf` with `md5MemOneShot`
and compare with the stored digest.  The MD5 implementation itself is an
external collaborator (`md5.c`), abstracted as the parameter `md5fn`. -/
def verifyChunkMD5 (md5fn : List Nat → List Nat) (buf : List Nat)
    (chunk : templateFileEntry) : Bool :=
  md5Cmp (md5fn (buf.take chunk.size)) chunk.md5Sum == 0

/-- The status-deciding logic of `fetch_worker`: `uriResolved` models
`md5ToURI` returning non-`NULL`, `mmapOk` models `mmap` succeeding,
`image` is the output-file byte content after the fetch (the worker's
mapping starts at `pagebase(offset)` and it writes and verifies at
`pagemod(offset)` inside it, i.e. at absolute offset `chunk.offset`),
and `fetched` is the byte count returned by `fetch`.  Returns the status
the worker stores last. -/
def fetch_worker (md5fn : List Nat → List Nat) (uriResolved mmapOk : Bool)
    (image : List Nat) (fetched : Nat) (chunk : templateFileEntry) :
    commitStatus :=
  if uriResolved then
    if mmapOk then
      if fetched == chunk.size &&
          verifyChunkMD5 md5fn (image.drop chunk.offset) chunk then
        .complete
      else
        .error
    else .fatalError
  else .fatalError

/-! ## Reverse-size comparator (`src/pigdo.c` 294-300) -/

/-- Wrapping `uint64_t` subtraction `a - b` (both operands reduced mod
`2^64` first, as C does). -/
def wsub64 (a b : Nat) : Nat := (a % 2 ^ 64 + (2 ^ 64 - b % 2 ^ 64)) % 2 ^ 64

/-- The C conversion of a `uint64_t` value to `int` (32-bit, two's
complement truncation, as on every platform pigdo targets). -/
def intOfUInt64 (v : Nat) : Int :=
  if v % 2 ^ 32 < 2 ^ 31 then ((v % 2 ^ 32 : Nat) : Int)
  else ((v % 2 ^ 32 : Nat) : Int) - 2 ^ 32

/-- `fileRevSizeCmp`: `return fileB->size - fileA->size;` — the difference
of two `uint64_t` sizes computed modulo `2^64` and then converted to the
`int` return type. -/
def fileRevSizeCmp (a b : templateFileEntry) : Int :=
  intOfUInt64 (wsub64 b.size a.size)

/-! ## Little-endian decoding (`src/libigdo/jigdo-template.c` 40-61) -/

/-- The accumulation loop of `readLittleEndianValue`:
`ret += (uint64_t)(((uint8_t *) base)[i]) << i * 8;` for `i` from `i0`
to `bytes - 1`, in `uint64_t` arithmetic.  Reading a memory cell as
`uint8_t` is modelled by `% 256`. -/
def readLEAux (base : List Nat) (bytes i ret : Nat) : Nat :=
  if i < bytes then
    readLEAux base bytes (i + 1)
      ((ret + base.getD i 0 % 256 * 2 ^ (8 * i) % 2 ^ 64) % 2 ^ 64)
  else ret
termination_by bytes - i

/-- `readLittleEndianValue(base, bytes)`. -/
def readLittleEndianValue (base : List Nat) (bytes : Nat) : Nat :=
  readLEAux base bytes 0 0

/-- `templateU48ToU64`: decode a 6-byte little-endian window. -/
def templateU48ToU64 (b : List Nat) : Nat := readLittleEndianValue b 6

/-! ## DESC-table parser (`src/libigdo/jigdo-template.c` 63-226)

The `FILE *` stream is a byte list; the part of the file from the current
position to EOF is the list `rem`.  `fread(buf, n, 1, fp)` returns 1 only
when `n` bytes remain. -/

/-- `fread(_, n, 1, fp)`: consume exactly `n` bytes or fail. -/
def readBytes (rem : List Nat) (n : Nat) : Option (List Nat × List Nat) :=
  if n ≤ rem.length then some (rem.take n, rem.drop n) else none

/-- One parsed DESC-table entry, tagged like the `type` byte groups of the
`switch` in `freadTemplateDesc` (`obsolete` distinguishes type 1 from 5 and
3 from 6). -/
inductive descEntry where
  | imageInfo (entrySize : Nat) (md5 : List Nat) (blockLen : Nat) (obsolete : Bool)
  | data (entrySize : Nat)
  | file (entrySize : Nat) (rsync : Nat) (md5 : List Nat) (obsolete : Bool)
deriving DecidableEq, Repr

/-- The entry loop `for (i = 0; size > sizeof(sizeRead); i++)` of
`freadTemplateDesc`.  `size` is the `uint64_t` countdown to EOF (each
`fread` is followed by the corresponding `size -=`, in wrapping
`uint64_t` arithmetic), `offset` is the running image offset (`off_t`;
image-info entries do not advance it), and `t` accumulates the table
exactly as the `switch` branches do.  Each `fread(buf, n, 1, fp)` is
`n ≤ rem.length` plus a `take`/`drop`; a short read or an unknown type
byte returns `none` (`return false` in C). -/
def parseEntries (rem : List Nat) (size offset : Nat) (t : templateDescTable) :
    Option templateDescTable :=
  if size > 6 then
    if h1 : 1 ≤ rem.length then
      let type := rem.getD 0 0
      let entrySize := templateU48ToU64 ((rem.drop 1).take 6)
      let size2 := wsub64 (wsub64 size 1) 6
      if h2 : 6 ≤ (rem.drop 1).length then
        if type = 1 ∨ type = 5 then
          if h3 : 16 ≤ ((rem.drop 1).drop 6).length then
            let md5 := ((rem.drop 1).drop 6).take 16
            let size3 := wsub64 size2 16
            if type = 5 then
              if h4 : 4 ≤ (((rem.drop 1).drop 6).drop 16).length then
                parseEntries ((((rem.drop 1).drop 6).drop 16).drop 4)
                  (wsub64 size3 4) offset
                  { t with imageInfo :=
                      { size := entrySize, md5Sum := md5,
                        rsync64SumBlockLen :=
                          readLittleEndianValue
                            ((((rem.drop 1).drop 6).drop 16).take 4) 4 } }
              else none
            else
              parseEntries (((rem.drop 1).drop 6).drop 16) size3 offset
                { t with imageInfo :=
                    { size := entrySize, md5Sum := md5, rsync64SumBlockLen := 0 } }
          else none
        else if type = 2 then
          parseEntries ((rem.drop 1).drop 6) size2 (offset + entrySize)
            { t with dataBlocks := t.dataBlocks ++
                [{ size := entrySize, offset := offset }] }
        else if type = 3 ∨ type = 6 then
          if type = 6 then
            if h3 : 8 ≤ ((rem.drop 1).drop 6).length then
              if h4 : 16 ≤ (((rem.drop 1).drop 6).drop 8).length then
                parseEntries ((((rem.drop 1).drop 6).drop 8).drop 16)
                  (wsub64 (wsub64 size2 8) 16) (offset + entrySize)
                  { t with files := t.files ++
                      [{ size := entrySize, offset := offset,
                         rsync64SumInitialBlock :=
                           readLittleEndianValue
                             (((rem.drop 1).drop 6).take 8) 8,
                         md5Sum := (((rem.drop 1).drop 6).drop 8).take 16,
                         status := .notStarted }] }
              else none
            else none
          else
            if h3 : 16 ≤ ((rem.drop 1).drop 6).length then
              parseEntries (((rem.drop 1).drop 6).drop 16)
                (wsub64 size2 16) (offset + entrySize)
                { t with files := t.files ++
                    [{ size := entrySize, offset := offset,
                       rsync64SumInitialBlock := 0,
                       md5Sum := ((rem.drop 1).drop 6).take 16,
                       status := .notStarted }] }
            else none
        else none
      else none
    else none
  else some t
termination_by rem.length
decreasing_by
  all_goals simp only [List.length_drop]
  all_goals omega

/-- The U48 read from the last six bytes of the file (the first
`fseek`/`fread` pair of `freadTemplateDesc`). -/
def tailU48 (f : List Nat) : Nat :=
  templateU48ToU64 (f.drop (f.length - 6))

/-- The U48 that follows the `"DESC"` magic: six bytes at position
`f.length - tailU48 f + 4` (the second length field, compared against the
tail one). -/
def interiorU48 (f : List Nat) : Nat :=
  templateU48ToU64 ((f.drop (f.length - tailU48 f + 4)).take 6)

/-- `freadTemplateDesc` from `src/libigdo/jigdo-template.c`: read the DESC
length from the tail, seek back, validate the `"DESC"` magic (bytes
`68 69 83 67`) and the repeated length field, then parse the entries.
`none` models `return false`.  `fseek(fp, -n, SEEK_END)` fails when `n`
exceeds the file length (the resulting position would be negative). -/
def freadTemplateDesc (f : List Nat) : Option templateDescTable :=
  if f.length < 6 then none
  else
    let size := tailU48 f
    if size > f.length then none
    else
      let rem := f.drop (f.length - size)
      match readBytes rem 4 with
      | none => none
      | some (hdr, rem1) =>
        if hdr ≠ [68, 69, 83, 67] then none
        else
          match readBytes rem1 6 with
          | none => none
          | some (szb, rem2) =>
            if size ≠ templateU48ToU64 szb then none
            else
              parseEntries rem2 (wsub64 size 10) 0 emptyDescTable

/-! ## Serialization of DESC entries (test-harness inverse of the parser,
used to state theorems about whole classes of inputs) -/

/-- Little-endian encoding of `v` on `n` bytes. -/
def encodeLE (n v : Nat) : List Nat :=
  (List.range n).map fun i => v / 2 ^ (8 * i) % 256

/-- Serialize one DESC entry in the byte order `freadTemplateDesc` reads:
type byte, U48 size, then the type-specific payload. -/
def serializeEntry : descEntry → List Nat
  | .imageInfo es md5 bl ob =>
      if ob then 1 :: (encodeLE 6 es ++ md5)
      else 5 :: (encodeLE 6 es ++ (md5 ++ encodeLE 4 bl))
  | .data es => 2 :: encodeLE 6 es
  | .file es rs md5 ob =>
      if ob then 3 :: (encodeLE 6 es ++ md5)
      else 6 :: (encodeLE 6 es ++ (encodeLE 8 rs ++ md5))

/-- Serialize a list of entries. -/
def serializeEntries (es : List descEntry) : List Nat :=
  (es.map serializeEntry).flatten

/-- Well-formedness of an entry for round-tripping: sizes fit their wire
width, digests are 16 bytes, and the fields the parser zero-initialises on
the obsolete variants are zero. -/
def entryWF : descEntry → Prop
  | .imageInfo es md5 bl ob =>
      es < 2 ^ 48 ∧ md5.length = 16 ∧ (if ob then bl = 0 else bl < 2 ^ 32)
  | .data es => es < 2 ^ 48
  | .file es rs md5 ob =>
      es < 2 ^ 48 ∧ md5.length = 16 ∧ (if ob then rs = 0 else rs < 2 ^ 64)

/-- Fold the table updates of the entry loop over a list of entries,
starting from image offset `offset`. -/
def applyEntries : List descEntry → Nat → templateDescTable → templateDescTable
  | [], _, t => t
  | .imageInfo es md5 bl _ :: rest, offset, t =>
      applyEntries rest offset
        { t with imageInfo := { size := es, md5Sum := md5, rsync64SumBlockLen := bl } }
  | .data es :: rest, offset, t =>
      applyEntries rest (offset + es)
        { t with dataBlocks := t.dataBlocks ++ [{ size := es, offset := offset }] }
  | .file es rs md5 _ :: rest, offset, t =>
      applyEntries rest (offset + es)
        { t with files := t.files ++
            [{ size := es, offset := offset, rsync64SumInitialBlock := rs,
               md5Sum := md5, status := .notStarted }] }

/-- The image offset after processing a list of entries (data and file
entries advance it by their `entry_size`; image-info entries do not). -/
def offsetAfter : List descEntry → Nat → Nat
  | [], o => o
  | .imageInfo _ _ _ _ :: rest, o => offsetAfter rest o
  | .data es :: rest, o => offsetAfter rest (o + es)
  | .file es _ _ _ :: rest, o => offsetAfter rest (o + es)

/-- A whole template file consisting of just a DESC table over `es`:
`"DESC"`, the length U48, the serialized entries, the trailing length
U48.  (`freadTemplateDesc` only ever reads the last `desc_len` bytes, so
any data-stream bytes before the table are irrelevant to it.) -/
def mkTemplateFile (es : List descEntry) : List Nat :=
  [68, 69, 83, 67] ++ encodeLE 6 (16 + (serializeEntries es).length) ++
    (serializeEntries es ++ encodeLE 6 (16 + (serializeEntries es).length))

/-- A DESC table whose entries start with the well-formed list `pre`,
followed by an entry whose type byte is `t`, then arbitrary bytes `rest`
(at least the trailing length field follows, so the 6 size bytes of the
bad entry can always be read). -/
def mkBadTypeFile (pre : List descEntry) (t : Nat) (rest : List Nat) : List Nat :=
  [68, 69, 83, 67] ++
    encodeLE 6 (17 + (serializeEntries pre).length + rest.length) ++
    (serializeEntries pre ++ (t :: rest ++
      encodeLE 6 (17 + (serializeEntries pre).length + rest.length)))

/-! ## Glue writer (`src/libigdo/jigdo-template.c` 366-443) -/

/-- `md5Cmp` (a 16-byte `memcmp`) returns 0 exactly on equal digests of
equal length. -/
theorem md5Cmp_eq_zero_iff :
    ∀ a b : List Nat, a.length = b.length → (md5Cmp a b = 0 ↔ a = b) := by
  intro a
  induction a with
  | nil =>
    intro b h
    cases b with
    | nil => simp [md5Cmp]
    | cons x xs => simp at h
  | cons x xs ih =>
    intro b h
    cases b with
    | nil => simp at h
    | cons y ys =>
      simp only [List.length_cons, Nat.add_right_cancel_iff] at h
      by_cases hxy : x = y
      · subst hxy
        simp only [md5Cmp, if_pos rfl, List.cons.injEq, true_and]
        exact ih ys h
      · simp only [md5Cmp, if_neg hxy, List.cons.injEq]
        constructor
        · intro hsub
          exfalso
          have : (x : Int) = (y : Int) := by omega
          exact hxy (by exact_mod_cast this)
        · rintro ⟨h1, -⟩
          exact absurd h1 hxy

/-- The `selectChunk` scan computes `List.findIdx?` of the eligibility
test, with `files.length` standing for "not found". -/
theorem selectChunkScan_spec (files : List commitStatus) :
    (List.findIdx? isWaitingFileNoMutex files = some (selectChunkScan files) ∧
      selectChunkScan files < files.length) ∨
    (List.findIdx? isWaitingFileNoMutex files = none ∧
      selectChunkScan files = files.length) := by
  induction files with
  | nil => right; simp [selectChunkScan]
  | cons s rest ih =>
    by_cases hs : isWaitingFileNoMutex s
    · left
      simp [selectChunkScan, hs, List.findIdx?_cons]
    · rcases ih with ⟨h1, h2⟩ | ⟨h1, h2⟩
      · left
        simp [selectChunkScan, hs, List.findIdx?_cons, h1, h2]
      · right
        simp [selectChunkScan, hs, List.findIdx?_cons, h1, h2]

/-! ## C1 — the fetch worker completes a part exactly on full fetch plus
MD5 match -/

/-- C1: when the URI resolved and the mmap succeeded, `fetch_worker`
stores `Complete` iff the fetched byte count equals the part size and the
MD5 of the image bytes at `[offset, offset+size)` equals the stored
digest; in every other case of that fetch it stores `Error`.
Consequently a part marked `Complete` has matching image bytes. -/
theorem fetch_worker_complete_iff (md5fn : List Nat → List Nat)
    (image : List Nat) (fetched : Nat) (chunk : templateFileEntry)
    (hlen : (md5fn ((image.drop chunk.offset).take chunk.size)).length =
      chunk.md5Sum.length) :
    (fetch_worker md5fn true true image fetched chunk = .complete ↔
      fetched = chunk.size ∧
        md5fn ((image.drop chunk.offset).take chunk.size) = chunk.md5Sum)
    ∧ (fetch_worker md5fn true true image fetched chunk = .complete ∨
        fetch_worker md5fn true true image fetched chunk = .error)
    ∧ (fetch_worker md5fn true true image fetched chunk = .complete →
        md5fn ((image.drop chunk.offset).take chunk.size) = chunk.md5Sum) := by
  have hv : verifyChunkMD5 md5fn (image.drop chunk.offset) chunk = true ↔
      md5fn ((image.drop chunk.offset).take chunk.size) = chunk.md5Sum := by
    simp only [verifyChunkMD5, beq_iff_eq]
    exact md5Cmp_eq_zero_iff _ _ hlen
  simp only [fetch_worker, if_pos rfl]
  by_cases hc : (fetched == chunk.size &&
      verifyChunkMD5 md5fn (image.drop chunk.offset) chunk) = true
  · rw [if_pos hc]
    rw [Bool.and_eq_true, beq_iff_eq] at hc
    exact ⟨iff_of_true rfl ⟨hc.1, hv.mp hc.2⟩, Or.inl rfl, fun _ => hv.mp hc.2⟩
  · rw [if_neg hc]
    rw [Bool.and_eq_true, beq_iff_eq] at hc
    constructor
    · constructor
      · intro h; exact absurd h (by simp)
      · intro ⟨h1, h2⟩; exact absurd ⟨h1, hv.mpr h2⟩ hc
    · exact ⟨Or.inr rfl, by simp⟩

/-- Witness for C1 at a concrete input: a 2-byte part fetched in full
with matching digest is marked `Complete`. -/
theorem fetch_worker_complete_iff_witness :
    fetch_worker (fun _ => List.replicate 16 0) true true [0, 0] 2
      { size := 2, offset := 0, rsync64SumInitialBlock := 0,
        md5Sum := List.replicate 16 0, status := .notStarted } = .complete :=
  (fetch_worker_complete_iff (fun _ => List.replicate 16 0) [0, 0] 2
    { size := 2, offset := 0, rsync64SumInitialBlock := 0,
      md5Sum := List.replicate 16 0, status := .notStarted } rfl).1.mpr
    ⟨rfl, rfl⟩

/-! ## C2 — `partsRemain` never examines the last part -/

/-- C2 (failing input): the claim says `partsRemain` with
`begin_complete = 0` returns a positive value whenever some part is not
`Complete`, but the scan loop runs `for (i = *beginComplete;
i < count - 1; i++)` and never looks at the last element: on the
one-element array `[NotStarted]` it returns 0 ("all parts complete"),
contradicting the function's own documentation. -/
theorem partsRemain_skips_last_part :
    partsRemain [commitStatus.notStarted] 0 = (0, 0) := by
  simp [partsRemain, partsRemainAux]

/-! ## C3 — `partsRemain` cannot return a negative value on `FatalError` -/

/-- C3 (failing input): on encountering a `FatalError` part the code
executes `ret = -1`, but `ret` is declared `bool`, so the value stored is
`true` and the function returns `1` (More), never a negative value:
on `[FatalError, NotStarted]` it returns `1`, contradicting its own
documentation ("negative if an unrecoverable error occurred"). -/
theorem partsRemain_fatal_not_negative :
    partsRemain [commitStatus.fatalError, commitStatus.notStarted] 0 = (1, 0) := by
  simp [partsRemain, partsRemainAux, cBool]

/-! ## C4 — `selectChunk` assigns the first eligible part -/

/-- C4: `selectChunk` returns the lowest index whose status is
`NotStarted`, `Error` or `LocalCopy` (as `List.findIdx?` of the
eligibility test), having set exactly that element to `Assigned`, and
returns `none` (NULL) precisely when no element is eligible. -/
theorem selectChunk_first_eligible (files : List commitStatus) :
    (selectChunk files).1 = List.findIdx? isWaitingFileNoMutex files
    ∧ (selectChunk files).2.1 =
        (match List.findIdx? isWaitingFileNoMutex files with
          | some i => files.set i .assigned
          | none => files)
    ∧ ((selectChunk files).1 = none ↔
        ∀ s ∈ files, isWaitingFileNoMutex s = false) := by
  rcases selectChunkScan_spec files with ⟨h1, h2⟩ | ⟨h1, h2⟩
  · have hne : selectChunkScan files ≠ files.length := Nat.ne_of_lt h2
    refine ⟨?_, ?_, ?_⟩
    · simp [selectChunk, if_neg hne, h1]
    · simp [selectChunk, if_neg hne, h1]
    · simp only [selectChunk, if_neg hne]
      constructor
      · intro h; exact absurd h (by simp)
      · intro hall
        have := List.findIdx?_eq_none_iff.mpr hall
        rw [this] at h1
        exact absurd h1 (by simp)
  · refine ⟨?_, ?_, ?_⟩
    · simp [selectChunk, if_pos h2, h1]
    · have hset : files.set (selectChunkScan files) .assigned = files := by
        apply List.set_eq_of_length_le
        omega
      simp [selectChunk, if_pos h2, h1, hset]
    · simp only [selectChunk, if_pos h2]
      simp only [true_iff]
      exact fun s hs => List.findIdx?_eq_none_iff.mp h1 s hs

/-! ## C5 — the `Assigned` store goes out of bounds when nothing is
eligible -/

/-- C5 (failing input): on an array with no eligible part (here
`[Complete]`, count 1) the scan ends with `i == count`, and the store
`files[i].status = COMMIT_STATUS_ASSIGNED` is executed before the
`i == count` test — a write one element past the end of the array (the
`true` flag).  The in-bounds elements are unchanged and NULL is
returned, but the claim that every store lands at an index strictly
below `count` is false. -/
theorem selectChunk_oob_store :
    selectChunk [commitStatus.complete] =
      (none, [commitStatus.complete], true) := by
  simp [selectChunk, selectChunkScan, isWaitingFileNoMutex]

/-! ## C8 — the glue writer fails before any work when the data blocks
exceed the image size -/

/-- C9 (failing input): `fileRevSizeCmp` computes
`fileB->size - fileA->size` in `uint64_t` and truncates to `int`.  For
sizes 0 and `2^31` the comparator claims each element precedes the other
(both orders negative), and for sizes 0 and `2^32` it reports distinct
sizes as equal — so `qsort` receives an inconsistent comparator and the
sorted array need not be in descending size order. -/
theorem fileRevSizeCmp_inconsistent :
    fileRevSizeCmp
        { size := 0, offset := 0, rsync64SumInitialBlock := 0, md5Sum := [],
          status := .notStarted }
        { size := 2 ^ 31, offset := 1, rsync64SumInitialBlock := 0,
          md5Sum := [], status := .notStarted } < 0
    ∧ fileRevSizeCmp
        { size := 2 ^ 31, offset := 1, rsync64SumInitialBlock := 0,
          md5Sum := [], status := .notStarted }
        { size := 0, offset := 0, rsync64SumInitialBlock := 0, md5Sum := [],
          status := .notStarted } < 0
    ∧ fileRevSizeCmp
        { size := 0, offset := 0, rsync64SumInitialBlock := 0, md5Sum := [],
          status := .notStarted }
        { size := 2 ^ 32, offset := 1, rsync64SumInitialBlock := 0,
          md5Sum := [], status := .notStarted } = 0
    ∧ fileRevSizeCmp
        { size := 2 ^ 32, offset := 1, rsync64SumInitialBlock := 0,
          md5Sum := [], status := .notStarted }
        { size := 0, offset := 0, rsync64SumInitialBlock := 0, md5Sum := [],
          status := .notStarted } = 0 := by
  refine ⟨?_, ?_, ?_, ?_⟩ <;> decide

/-! ## C10 — U48 decoding -/

/-- The accumulation loop computes the little-endian sum (mod `2^64`). -/
theorem readLEAux_eq_sum (b : List Nat) (n : Nat) :
    ∀ k i ret, n - i = k → ret < 2 ^ 64 →
      readLEAux b n i ret =
        (ret + ∑ j in Finset.Ico i n, b.getD j 0 % 256 * 2 ^ (8 * j)) % 2 ^ 64 := by
  intro k
  induction k with
  | zero =>
    intro i ret hk hret
    have hni : ¬ i < n := by omega
    rw [readLEAux.eq_def, if_neg hni, Finset.Ico_eq_empty (by omega),
      Finset.sum_empty, Nat.add_zero, Nat.mod_eq_of_lt hret]
  | succ k ih =>
    intro i ret hk hret
    have hin : i < n := by omega
    rw [readLEAux.eq_def, if_pos hin,
      ih (i + 1) _ (by omega) (Nat.mod_lt _ (by positivity)),
      Finset.sum_eq_sum_Ico_succ_bot hin, Nat.mod_add_mod]
    have := (Nat.ModEq.refl ret).add
      (((Nat.mod_modEq (b.getD i 0 % 256 * 2 ^ (8 * i)) (2 ^ 64))).add
        (Nat.ModEq.refl (∑ j in Finset.Ico (i + 1) n, b.getD j 0 % 256 * 2 ^ (8 * j))))
    calc (ret + b.getD i 0 % 256 * 2 ^ (8 * i) % 2 ^ 64 +
            ∑ j in Finset.Ico (i + 1) n, b.getD j 0 % 256 * 2 ^ (8 * j)) % 2 ^ 64
        = (ret + (b.getD i 0 % 256 * 2 ^ (8 * i) % 2 ^ 64 +
            ∑ j in Finset.Ico (i + 1) n, b.getD j 0 % 256 * 2 ^ (8 * j))) % 2 ^ 64 := by
          rw [Nat.add_assoc]
      _ = (ret + (b.getD i 0 % 256 * 2 ^ (8 * i) +
            ∑ j in Finset.Ico (i + 1) n, b.getD j 0 % 256 * 2 ^ (8 * j))) % 2 ^ 64 :=
          this

/-- `readLittleEndianValue` is the little-endian byte sum, mod `2^64`. -/
theorem readLittleEndianValue_eq_sum (b : List Nat) (n : Nat) :
    readLittleEndianValue b n =
      (∑ j in Finset.range n, b.getD j 0 % 256 * 2 ^ (8 * j)) % 2 ^ 64 := by
  rw [readLittleEndianValue, readLEAux_eq_sum b n n 0 0 rfl (by norm_num),
    Nat.zero_add, Finset.range_eq_Ico]

/-- C10: `templateU48ToU64` returns exactly `Σ b[i]·2^(8i)` on a window
of genuine bytes, the result is below `2^48`, and the boundary
values 0, 1 and `2^48 − 1` decode without overflow. -/
theorem readLittleEndianValue_u48_spec (b : List Nat) (h : ∀ x ∈ b, x < 256) :
    templateU48ToU64 b = ∑ j in Finset.range 6, b.getD j 0 * 2 ^ (8 * j)
    ∧ templateU48ToU64 b < 2 ^ 48
    ∧ templateU48ToU64 (List.replicate 6 0) = 0
    ∧ templateU48ToU64 (1 :: List.replicate 5 0) = 1
    ∧ templateU48ToU64 (List.replicate 6 255) = 2 ^ 48 - 1 := by
  have hgetD : ∀ j : Nat, b.getD j 0 % 256 = b.getD j 0 := by
    intro j
    rcases Nat.lt_or_ge j b.length with hj | hj
    · rw [List.getD_eq_getElem b 0 hj]
      exact Nat.mod_eq_of_lt (h _ (List.getElem_mem hj))
    · rw [List.getD_eq_default b 0 hj]
  have hbound : ∀ c : List Nat,
      (∑ j in Finset.range 6, c.getD j 0 % 256 * 2 ^ (8 * j)) ≤ 2 ^ 48 - 1 := by
    intro c
    calc ∑ j in Finset.range 6, c.getD j 0 % 256 * 2 ^ (8 * j)
        ≤ ∑ j in Finset.range 6, 255 * 2 ^ (8 * j) := by
          refine Finset.sum_le_sum fun j _ => Nat.mul_le_mul_right _ ?_
          omega
      _ = 2 ^ 48 - 1 := by norm_num [Finset.sum_range_succ]
  have hval : ∀ c : List Nat, templateU48ToU64 c =
      ∑ j in Finset.range 6, c.getD j 0 % 256 * 2 ^ (8 * j) := by
    intro c
    rw [templateU48ToU64, readLittleEndianValue_eq_sum]
    exact Nat.mod_eq_of_lt (by have := hbound c; omega)
  refine ⟨?_, ?_, ?_, ?_, ?_⟩
  · rw [hval]
    exact Finset.sum_congr rfl fun j _ => by rw [hgetD]
  · rw [hval]; have := hbound b; omega
  · rw [hval]; norm_num [Finset.sum_range_succ]
  · rw [hval]; norm_num [Finset.sum_range_succ]
  · rw [hval]; norm_num [Finset.sum_range_succ]

/-- Witness for C10 at the byte window `[1,0,0,0,0,0]`. -/
theorem readLittleEndianValue_u48_spec_witness :
    templateU48ToU64 [1, 0, 0, 0, 0, 0] =
      ∑ j in Finset.range 6, [1, 0, 0, 0, 0, 0].getD j 0 * 2 ^ (8 * j)
    ∧ templateU48ToU64 [1, 0, 0, 0, 0, 0] < 2 ^ 48 :=
  ⟨(readLittleEndianValue_u48_spec [1, 0, 0, 0, 0, 0] (by decide)).1,
   (readLittleEndianValue_u48_spec [1, 0, 0, 0, 0, 0] (by decide)).2.1⟩

/-! ## Helper lemmas for the DESC parser theorems (C6, C7) -/

theorem encodeLE_length (n v : Nat) : (encodeLE n v).length = n := by
  simp [encodeLE]

theorem getD_encodeLE (n v : Nat) (rest : List Nat) (j : Nat) (hj : j < n) :
    (encodeLE n v ++ rest).getD j 0 = v / 2 ^ (8 * j) % 256 := by
  rw [List.getD_append _ _ _ _ (by rw [encodeLE_length]; omega),
    List.getD_eq_getElem _ _ (by rw [encodeLE_length]; omega)]
  simp [encodeLE]

/-- Base-256 digit reconstruction. -/
theorem sum_digits (n : Nat) : ∀ v, v < 2 ^ (8 * n) →
    ∑ j in Finset.range n, v / 2 ^ (8 * j) % 256 * 2 ^ (8 * j) = v := by
  induction n with
  | zero =>
    intro v hv
    simp only [Nat.mul_zero, pow_zero, Nat.lt_one_iff] at hv
    simp [hv]
  | succ n ih =>
    intro v hv
    rw [Finset.sum_range_succ']
    have hstep : ∀ j : Nat, v / 2 ^ (8 * (j + 1)) % 256 * 2 ^ (8 * (j + 1)) =
        v / 256 / 2 ^ (8 * j) % 256 * 2 ^ (8 * j) * 256 := by
      intro j
      have h8 : 8 * (j + 1) = 8 * j + 8 := by ring
      rw [h8, pow_add, Nat.div_div_eq_div_mul, Nat.mul_comm (2 ^ (8 * j)) (2 ^ 8)]
      norm_num
      ring
    have hdiv : v / 256 < 2 ^ (8 * n) := by
      have h8 : 8 * (n + 1) = 8 * n + 8 := by ring
      rw [h8, pow_add] at hv
      exact Nat.div_lt_of_lt_mul (by norm_num at hv ⊢; omega)
    calc (∑ j in Finset.range n, v / 2 ^ (8 * (j + 1)) % 256 * 2 ^ (8 * (j + 1)))
          + v / 2 ^ (8 * 0) % 256 * 2 ^ (8 * 0)
        = (∑ j in Finset.range n, v / 256 / 2 ^ (8 * j) % 256 * 2 ^ (8 * j) * 256)
          + v % 256 := by
          rw [Finset.sum_congr rfl fun j _ => hstep j]
          norm_num
      _ = (∑ j in Finset.range n, v / 256 / 2 ^ (8 * j) % 256 * 2 ^ (8 * j)) * 256
          + v % 256 := by rw [Finset.sum_mul]
      _ = v / 256 * 256 + v % 256 := by rw [ih (v / 256) hdiv]
      _ = v := by omega

/-- Decoding inverts encoding: `readLittleEndianValue` of the
little-endian encoding of `v` on `n ≤ 8` bytes (followed by anything)
recovers `v`. -/
theorem decode_encodeLE (n v : Nat) (rest : List Nat) (hv : v < 2 ^ (8 * n))
    (hn : 8 * n ≤ 64) :
    readLittleEndianValue (encodeLE n v ++ rest) n = v := by
  rw [readLittleEndianValue_eq_sum]
  have hcong : ∑ j in Finset.range n, (encodeLE n v ++ rest).getD j 0 % 256 * 2 ^ (8 * j)
      = ∑ j in Finset.range n, v / 2 ^ (8 * j) % 256 * 2 ^ (8 * j) := by
    refine Finset.sum_congr rfl fun j hj => ?_
    rw [getD_encodeLE n v rest j (Finset.mem_range.mp hj),
      Nat.mod_eq_of_lt (Nat.mod_lt _ (by norm_num))]
  rw [hcong, sum_digits n v hv]
  exact Nat.mod_eq_of_lt (lt_of_lt_of_le hv (Nat.pow_le_pow_right (by norm_num) hn))

/-- `templateU48ToU64` of a 6-byte encoding. -/
theorem templateU48_encodeLE (v : Nat) (hv : v < 2 ^ 48) :
    templateU48ToU64 (encodeLE 6 v) = v := by
  have := decode_encodeLE 6 v [] (by norm_num; omega) (by norm_num)
  simpa [templateU48ToU64] using this

/-- `readLittleEndianValue` of an `n`-byte encoding alone. -/
theorem readLE_encodeLE (n v : Nat) (hv : v < 2 ^ (8 * n)) (hn : 8 * n ≤ 64) :
    readLittleEndianValue (encodeLE n v) n = v := by
  have := decode_encodeLE n v [] hv hn
  simpa using this

/-- `wsub64` is plain subtraction when no wrap occurs. -/
theorem wsub64_eq (a b : Nat) (h1 : b ≤ a) (h2 : a < 2 ^ 64) :
    wsub64 a b = a - b := by
  unfold wsub64; omega

theorem serializeEntries_nil : serializeEntries [] = [] := by
  simp [serializeEntries]

theorem serializeEntries_cons (e : descEntry) (es : List descEntry) :
    serializeEntries (e :: es) = serializeEntry e ++ serializeEntries es := by
  simp [serializeEntries]

/-- The entry loop returns the accumulated table once the countdown
reaches the size of the trailing length field. -/
theorem parseEntries_stop (rem : List Nat) (size offset : Nat)
    (t : templateDescTable) (h : ¬ size > 6) :
    parseEntries rem size offset t = some t := by
  rw [parseEntries.eq_def, if_neg h]

/-- One loop iteration on a serialized `Data` entry (type byte 2). -/
theorem parseEntries_step_data (es₀ : Nat) (rest : List Nat) (size offset : Nat)
    (t : templateDescTable) (hsize : 6 < size) (hlt : size < 2 ^ 64)
    (hes : es₀ < 2 ^ 48) :
    parseEntries (2 :: (encodeLE 6 es₀ ++ rest)) size offset t
      = parseEntries rest (size - 7) (offset + es₀)
          { t with dataBlocks := t.dataBlocks ++
              [{ size := es₀, offset := offset }] } := by
  have henc : (encodeLE 6 es₀).length = 6 := encodeLE_length 6 es₀
  have hw : wsub64 (wsub64 size 1) 6 = size - 7 := by
    rw [wsub64_eq _ _ (by omega) hlt, wsub64_eq _ _ (by omega) (by omega)]
    omega
  rw [parseEntries.eq_def]
  simp only [List.getD_cons_zero, List.drop_succ_cons, List.drop_zero,
    List.length_cons, List.length_append, henc, List.take_left' henc,
    List.drop_left' henc, if_pos hsize, templateU48_encodeLE es₀ hes, hw]
  rw [dif_pos (by omega), dif_pos (by omega)]
  norm_num

/-- One loop iteration on a serialized obsolete `File` entry (type 3). -/
theorem parseEntries_step_fileObs (es₀ : Nat) (md5 rest : List Nat)
    (size offset : Nat) (t : templateDescTable) (hsize : 6 < size)
    (hlt : size < 2 ^ 64) (hge : 23 ≤ size) (hes : es₀ < 2 ^ 48)
    (hmd5 : md5.length = 16) :
    parseEntries (3 :: (encodeLE 6 es₀ ++ (md5 ++ rest))) size offset t
      = parseEntries rest (size - 23) (offset + es₀)
          { t with files := t.files ++
              [{ size := es₀, offset := offset, rsync64SumInitialBlock := 0,
                 md5Sum := md5, status := .notStarted }] } := by
  have henc : (encodeLE 6 es₀).length = 6 := encodeLE_length 6 es₀
  have hw1 : wsub64 size 1 = size - 1 := wsub64_eq _ _ (by omega) hlt
  have hw2 : wsub64 (size - 1) 6 = size - 7 := by
    rw [wsub64_eq _ _ (by omega) (by omega)]; omega
  have hw3 : wsub64 (size - 7) 16 = size - 23 := by
    rw [wsub64_eq _ _ (by omega) (by omega)]; omega
  rw [parseEntries.eq_def]
  simp only [List.getD_cons_zero, List.drop_succ_cons, List.drop_zero,
    List.length_cons, List.length_append, henc, hmd5, List.take_left' henc,
    List.drop_left' henc, List.take_left' hmd5, List.drop_left' hmd5,
    if_pos hsize, templateU48_encodeLE es₀ hes, hw1, hw2, hw3]
  rw [dif_pos (by omega), dif_pos (by omega)]
  norm_num

/-- One loop iteration on a serialized `File` entry (type 6). -/
theorem parseEntries_step_file (es₀ rs : Nat) (md5 rest : List Nat)
    (size offset : Nat) (t : templateDescTable) (hsize : 6 < size)
    (hlt : size < 2 ^ 64) (hge : 31 ≤ size) (hes : es₀ < 2 ^ 48)
    (hrs : rs < 2 ^ 64) (hmd5 : md5.length = 16) :
    parseEntries (6 :: (encodeLE 6 es₀ ++ (encodeLE 8 rs ++ (md5 ++ rest))))
        size offset t
      = parseEntries rest (size - 31) (offset + es₀)
          { t with files := t.files ++
              [{ size := es₀, offset := offset, rsync64SumInitialBlock := rs,
                 md5Sum := md5, status := .notStarted }] } := by
  have henc : (encodeLE 6 es₀).length = 6 := encodeLE_length 6 es₀
  have henc8 : (encodeLE 8 rs).length = 8 := encodeLE_length 8 rs
  have hrs64 : rs < 2 ^ (8 * 8) := by norm_num at hrs ⊢; omega
  have hdec8 : readLittleEndianValue (encodeLE 8 rs) 8 = rs :=
    readLE_encodeLE 8 rs hrs64 (by norm_num)
  have hw1 : wsub64 size 1 = size - 1 := wsub64_eq _ _ (by omega) hlt
  have hw2 : wsub64 (size - 1) 6 = size - 7 := by
    rw [wsub64_eq _ _ (by omega) (by omega)]; omega
  have hw3 : wsub64 (size - 7) 8 = size - 15 := by
    rw [wsub64_eq _ _ (by omega) (by omega)]; omega
  have hw4 : wsub64 (size - 15) 16 = size - 31 := by
    rw [wsub64_eq _ _ (by omega) (by omega)]; omega
  rw [parseEntries.eq_def]
  simp only [List.getD_cons_zero, List.drop_succ_cons, List.drop_zero,
    List.length_cons, List.length_append, henc, henc8, hmd5,
    List.take_left' henc, List.drop_left' henc, List.take_left' henc8,
    List.drop_left' henc8, List.take_left' hmd5, List.drop_left' hmd5,
    if_pos hsize, templateU48_encodeLE es₀ hes, hdec8, hw1, hw2, hw3, hw4]
  rw [dif_pos (by omega), dif_pos (by omega)]
  norm_num

/-- One loop iteration on a serialized obsolete `ImageInfo` entry
(type 1). -/
theorem parseEntries_step_imageObs (es₀ : Nat) (md5 rest : List Nat)
    (size offset : Nat) (t : templateDescTable) (hsize : 6 < size)
    (hlt : size < 2 ^ 64) (hge : 23 ≤ size) (hes : es₀ < 2 ^ 48)
    (hmd5 : md5.length = 16) :
    parseEntries (1 :: (encodeLE 6 es₀ ++ (md5 ++ rest))) size offset t
      = parseEntries rest (size - 23) offset
          { t with imageInfo :=
              { size := es₀, md5Sum := md5, rsync64SumBlockLen := 0 } } := by
  have henc : (encodeLE 6 es₀).length = 6 := encodeLE_length 6 es₀
  have hw1 : wsub64 size 1 = size - 1 := wsub64_eq _ _ (by omega) hlt
  have hw2 : wsub64 (size - 1) 6 = size - 7 := by
    rw [wsub64_eq _ _ (by omega) (by omega)]; omega
  have hw3 : wsub64 (size - 7) 16 = size - 23 := by
    rw [wsub64_eq _ _ (by omega) (by omega)]; omega
  rw [parseEntries.eq_def]
  simp only [List.getD_cons_zero, List.drop_succ_cons, List.drop_zero,
    List.length_cons, List.length_append, henc, hmd5, List.take_left' henc,
    List.drop_left' henc, List.take_left' hmd5, List.drop_left' hmd5,
    if_pos hsize, templateU48_encodeLE es₀ hes, hw1, hw2, hw3]
  rw [dif_pos (by omega), dif_pos (by omega)]
  norm_num

/-- One loop iteration on a serialized `ImageInfo` entry (type 5). -/
theorem parseEntries_step_image (es₀ bl : Nat) (md5 rest : List Nat)
    (size offset : Nat) (t : templateDescTable) (hsize : 6 < size)
    (hlt : size < 2 ^ 64) (hge : 27 ≤ size) (hes : es₀ < 2 ^ 48)
    (hbl : bl < 2 ^ 32) (hmd5 : md5.length = 16) :
    parseEntries (5 :: (encodeLE 6 es₀ ++ (md5 ++ (encodeLE 4 bl ++ rest))))
        size offset t
      = parseEntries rest (size - 27) offset
          { t with imageInfo :=
              { size := es₀, md5Sum := md5, rsync64SumBlockLen := bl } } := by
  have henc : (encodeLE 6 es₀).length = 6 := encodeLE_length 6 es₀
  have henc4 : (encodeLE 4 bl).length = 4 := encodeLE_length 4 bl
  have hbl32 : bl < 2 ^ (8 * 4) := by norm_num at hbl ⊢; omega
  have hdec4 : readLittleEndianValue (encodeLE 4 bl) 4 = bl :=
    readLE_encodeLE 4 bl hbl32 (by norm_num)
  have hw1 : wsub64 size 1 = size - 1 := wsub64_eq _ _ (by omega) hlt
  have hw2 : wsub64 (size - 1) 6 = size - 7 := by
    rw [wsub64_eq _ _ (by omega) (by omega)]; omega
  have hw3 : wsub64 (size - 7) 16 = size - 23 := by
    rw [wsub64_eq _ _ (by omega) (by omega)]; omega
  have hw4 : wsub64 (size - 23) 4 = size - 27 := by
    rw [wsub64_eq _ _ (by omega) (by omega)]; omega
  rw [parseEntries.eq_def]
  simp only [List.getD_cons_zero, List.drop_succ_cons, List.drop_zero,
    List.length_cons, List.length_append, henc, henc4, hmd5,
    List.take_left' henc, List.drop_left' henc, List.take_left' hmd5,
    List.drop_left' hmd5, List.take_left' henc4, List.drop_left' henc4,
    if_pos hsize, templateU48_encodeLE es₀ hes, hdec4, hw1, hw2, hw3, hw4]
  rw [dif_pos (by omega), dif_pos (by omega)]
  norm_num


/-- The entry loop over a serialized list of well-formed entries consumes
them one by one, folding their table updates, and continues on whatever
follows with the remaining countdown. -/
theorem parseEntries_serialized (es : List descEntry) :
    ∀ (r : List Nat) (s offset : Nat) (t : templateDescTable),
      (∀ e ∈ es, entryWF e) →
      (serializeEntries es).length + s < 2 ^ 64 →
      parseEntries (serializeEntries es ++ r)
          ((serializeEntries es).length + s) offset t
        = parseEntries r s (offsetAfter es offset) (applyEntries es offset t) := by
  induction es with
  | nil =>
    intro r s offset t _ _
    simp [serializeEntries_nil, offsetAfter, applyEntries]
  | cons e es ih =>
    intro r s offset t hwf hlen
    have hwfe := hwf e (List.mem_cons_self e es)
    have hwfes : ∀ x ∈ es, entryWF x := fun x hx => hwf x (List.mem_cons_of_mem e hx)
    rw [serializeEntries_cons] at hlen ⊢
    rw [List.length_append] at hlen ⊢
    rw [List.append_assoc]
    cases e with
    | data es₀ =>
      simp only [entryWF] at hwfe
      have hL : (serializeEntry (descEntry.data es₀)).length = 7 := by
        simp [serializeEntry, encodeLE_length]
      rw [hL] at hlen ⊢
      simp only [serializeEntry, List.cons_append]
      rw [parseEntries_step_data es₀ (serializeEntries es ++ r) _ offset t
        (by omega) (by omega) hwfe]
      rw [show 7 + (serializeEntries es).length + s - 7 =
        (serializeEntries es).length + s from by omega]
      rw [ih r s (offset + es₀) _ hwfes (by omega)]
      simp [offsetAfter, applyEntries]
    | imageInfo es₀ md5 bl ob =>
      cases ob with
      | true =>
        simp only [entryWF, if_true] at hwfe
        obtain ⟨hes, hmd5, hbl⟩ := hwfe
        subst hbl
        have hL : (serializeEntry (descEntry.imageInfo es₀ md5 0 true)).length = 23 := by
          simp [serializeEntry, encodeLE_length, hmd5]
        rw [hL] at hlen ⊢
        simp only [serializeEntry, if_true, List.cons_append, List.append_assoc]
        rw [parseEntries_step_imageObs es₀ md5 (serializeEntries es ++ r) _ offset t
          (by omega) (by omega) (by omega) hes hmd5]
        rw [show 23 + (serializeEntries es).length + s - 23 =
          (serializeEntries es).length + s from by omega]
        rw [ih r s offset _ hwfes (by omega)]
        simp [offsetAfter, applyEntries]
      | false =>
        simp only [entryWF] at hwfe
        obtain ⟨hes, hmd5, hbl⟩ := hwfe
        norm_num at hbl
        have hL : (serializeEntry (descEntry.imageInfo es₀ md5 bl false)).length = 27 := by
          simp [serializeEntry, encodeLE_length, hmd5]
        rw [hL] at hlen ⊢
        rw [show serializeEntry (descEntry.imageInfo es₀ md5 bl false) =
          5 :: (encodeLE 6 es₀ ++ (md5 ++ encodeLE 4 bl)) from rfl]
        simp only [List.cons_append, List.append_assoc]
        rw [parseEntries_step_image es₀ bl md5 (serializeEntries es ++ r) _ offset t
          (by omega) (by omega) (by omega) hes hbl hmd5]
        rw [show 27 + (serializeEntries es).length + s - 27 =
          (serializeEntries es).length + s from by omega]
        rw [ih r s offset _ hwfes (by omega)]
        simp [offsetAfter, applyEntries]
    | file es₀ rs md5 ob =>
      cases ob with
      | true =>
        simp only [entryWF, if_true] at hwfe
        obtain ⟨hes, hmd5, hrs⟩ := hwfe
        subst hrs
        have hL : (serializeEntry (descEntry.file es₀ 0 md5 true)).length = 23 := by
          simp [serializeEntry, encodeLE_length, hmd5]
        rw [hL] at hlen ⊢
        simp only [serializeEntry, if_true, List.cons_append, List.append_assoc]
        rw [parseEntries_step_fileObs es₀ md5 (serializeEntries es ++ r) _ offset t
          (by omega) (by omega) (by omega) hes hmd5]
        rw [show 23 + (serializeEntries es).length + s - 23 =
          (serializeEntries es).length + s from by omega]
        rw [ih r s (offset + es₀) _ hwfes (by omega)]
        simp [offsetAfter, applyEntries]
      | false =>
        simp only [entryWF] at hwfe
        obtain ⟨hes, hmd5, hrs⟩ := hwfe
        norm_num at hrs
        have hL : (serializeEntry (descEntry.file es₀ rs md5 false)).length = 31 := by
          simp [serializeEntry, encodeLE_length, hmd5]
        rw [hL] at hlen ⊢
        rw [show serializeEntry (descEntry.file es₀ rs md5 false) =
          6 :: (encodeLE 6 es₀ ++ (encodeLE 8 rs ++ md5)) from rfl]
        simp only [List.cons_append, List.append_assoc]
        rw [parseEntries_step_file es₀ rs md5 (serializeEntries es ++ r) _ offset t
          (by omega) (by omega) (by omega) hes hrs hmd5]
        rw [show 31 + (serializeEntries es).length + s - 31 =
          (serializeEntries es).length + s from by omega]
        rw [ih r s (offset + es₀) _ hwfes (by omega)]
        simp [offsetAfter, applyEntries]

/-- `freadTemplateDesc` on a file that is exactly a framed DESC table:
the tail length, magic and repeated length all check out, and parsing
continues with the entry loop over the payload. -/
theorem freadTemplateDesc_desc_only (payload : List Nat)
    (hL : 16 + payload.length < 2 ^ 48) :
    freadTemplateDesc ([68, 69, 83, 67] ++ (encodeLE 6 (16 + payload.length) ++
        (payload ++ encodeLE 6 (16 + payload.length))))
      = parseEntries (payload ++ encodeLE 6 (16 + payload.length))
          (payload.length + 6) 0 emptyDescTable := by
  have henc : (encodeLE 6 (16 + payload.length)).length = 6 :=
    encodeLE_length 6 (16 + payload.length)
  have hflen : ([68, 69, 83, 67] ++ (encodeLE 6 (16 + payload.length) ++
      (payload ++ encodeLE 6 (16 + payload.length)))).length
      = 16 + payload.length := by
    simp [henc]
    omega
  have hsplit : [68, 69, 83, 67] ++ (encodeLE 6 (16 + payload.length) ++
      (payload ++ encodeLE 6 (16 + payload.length)))
      = ([68, 69, 83, 67] ++ (encodeLE 6 (16 + payload.length) ++ payload)) ++
        encodeLE 6 (16 + payload.length) := by
    simp [List.append_assoc]
  have hAlen : ([68, 69, 83, 67] ++
      (encodeLE 6 (16 + payload.length) ++ payload)).length
      = 16 + payload.length - 6 := by
    simp [henc]
    omega
  have htail : tailU48 ([68, 69, 83, 67] ++ (encodeLE 6 (16 + payload.length) ++
      (payload ++ encodeLE 6 (16 + payload.length))))
      = 16 + payload.length := by
    rw [tailU48, hflen, hsplit, List.drop_left' hAlen, templateU48_encodeLE _ hL]
  have htake4 : ([68, 69, 83, 67] ++ (encodeLE 6 (16 + payload.length) ++
      (payload ++ encodeLE 6 (16 + payload.length)))).take 4
      = [68, 69, 83, 67] := List.take_left' (by simp)
  have hdrop4 : ([68, 69, 83, 67] ++ (encodeLE 6 (16 + payload.length) ++
      (payload ++ encodeLE 6 (16 + payload.length)))).drop 4
      = encodeLE 6 (16 + payload.length) ++
        (payload ++ encodeLE 6 (16 + payload.length)) := List.drop_left' (by simp)
  have hw : wsub64 (16 + payload.length) 10 = payload.length + 6 := by
    rw [wsub64_eq _ _ (by omega) (by omega)]
    omega
  simp only [freadTemplateDesc, htail, hflen, Nat.sub_self, List.drop_zero,
    readBytes, htake4, hdrop4, List.length_append, henc,
    List.take_left' henc, List.drop_left' henc, templateU48_encodeLE _ hL, hw,
    (show ¬ (16 + payload.length < 6) from by omega),
    (show ¬ (16 + payload.length > 16 + payload.length) from by omega),
    (show (4 : Nat) ≤ 16 + payload.length from by omega),
    (show (6 : Nat) ≤ 6 + (payload.length + 6) from by omega),
    if_false, if_true, ite_true, ite_false, ne_eq, not_true, not_false_iff]

/-! ## C6 — the parser has no last-entry invariant check -/

/-- C6 (counterexample): a well-framed DESC table whose single entry is a
`Data` entry (type 2) — so the last entry is *not* an
ImageInfo/ImageInfoObsolete and no image-info record is ever stored — is
accepted by `freadTemplateDesc`, contradicting the claim that such inputs
yield `BadTemplate`. -/
theorem freadTemplateDesc_accepts_data_last :
    freadTemplateDesc
        [68, 69, 83, 67, 23, 0, 0, 0, 0, 0, 2, 1, 0, 0, 0, 0, 0,
         23, 0, 0, 0, 0, 0]
      = some
          { imageInfo :=
              { size := 0, md5Sum := List.replicate 16 0, rsync64SumBlockLen := 0 }
            dataBlocks := [{ size := 1, offset := 0 }]
            files := []
            existingFile := false } := by
  have hfile : ([68, 69, 83, 67, 23, 0, 0, 0, 0, 0, 2, 1, 0, 0, 0, 0, 0,
      23, 0, 0, 0, 0, 0] : List Nat)
      = [68, 69, 83, 67] ++ (encodeLE 6 (16 + ([2, 1, 0, 0, 0, 0, 0] : List Nat).length) ++
        ([2, 1, 0, 0, 0, 0, 0] ++
          encodeLE 6 (16 + ([2, 1, 0, 0, 0, 0, 0] : List Nat).length))) := by rfl
  rw [hfile, freadTemplateDesc_desc_only [2, 1, 0, 0, 0, 0, 0] (by norm_num)]
  have hpay : ([2, 1, 0, 0, 0, 0, 0] : List Nat) ++ encodeLE 6 (16 + ([2, 1, 0, 0, 0, 0, 0] : List Nat).length)
      = 2 :: (encodeLE 6 1 ++ encodeLE 6 23) := by rfl
  rw [show ([2, 1, 0, 0, 0, 0, 0] : List Nat).length + 6 = 13 from rfl, hpay,
    parseEntries_step_data 1 (encodeLE 6 23) 13 0 emptyDescTable
      (by norm_num) (by norm_num) (by norm_num),
    parseEntries_stop _ _ _ _ (by norm_num)]
  rfl

/-- C6 (amended): `freadTemplateDesc` performs no final-entry invariant
check at all — every well-framed serialized entry sequence is accepted,
with the table being the plain fold of the entries, regardless of whether
the last entry is an ImageInfo and regardless of any relation between
`entry_size` values and the accumulated offset. -/
theorem freadTemplateDesc_no_invariant_check (es : List descEntry)
    (hwf : ∀ e ∈ es, entryWF e)
    (hL : 16 + (serializeEntries es).length < 2 ^ 48) :
    freadTemplateDesc (mkTemplateFile es)
      = some (applyEntries es 0 emptyDescTable) := by
  rw [mkTemplateFile, List.append_assoc,
    freadTemplateDesc_desc_only (serializeEntries es) hL]
  rw [show (serializeEntries es).length + 6 = (serializeEntries es).length + 6 from rfl,
    parseEntries_serialized es
      (encodeLE 6 (16 + (serializeEntries es).length)) 6 0 emptyDescTable hwf
      (by omega)]
  exact parseEntries_stop _ _ _ _ (by omega)

/-- Witness for C6 (amended) at the single-`Data`-entry table. -/
theorem freadTemplateDesc_no_invariant_check_witness :
    freadTemplateDesc (mkTemplateFile [descEntry.data 1])
      = some (applyEntries [descEntry.data 1] 0 emptyDescTable) :=
  freadTemplateDesc_no_invariant_check [descEntry.data 1]
    (by
      intro e he
      simp only [List.mem_singleton] at he
      subst he
      simp [entryWF])
    (by simp [serializeEntries, serializeEntry, encodeLE_length])

/-! ## C7 — framing and type-byte rejection -/

/-- When the U48 following the `"DESC"` magic decodes to a different
value than the U48 in the last six bytes of the file, `freadTemplateDesc`
fails. -/
theorem freadTemplateDesc_len_mismatch (f : List Nat)
    (hne : interiorU48 f ≠ tailU48 f) :
    freadTemplateDesc f = none := by
  simp only [freadTemplateDesc, readBytes]
  split
  · rfl
  split
  · rfl
  split
  · rfl
  next hdr rem1 heq =>
    by_cases h4 : 4 ≤ (f.drop (f.length - tailU48 f)).length
    case neg =>
      rw [if_neg h4] at heq
      exact absurd heq (by simp)
    case pos =>
      rw [if_pos h4] at heq
      simp only [Option.some.injEq, Prod.mk.injEq] at heq
      obtain ⟨-, hrem1⟩ := heq
      split
      · rfl
      split
      · rfl
      next szb rem2 heq2 =>
        by_cases h6b : 6 ≤ rem1.length
        case neg =>
          rw [if_neg h6b] at heq2
          exact absurd heq2 (by simp)
        case pos =>
          rw [if_pos h6b] at heq2
          simp only [Option.some.injEq, Prod.mk.injEq] at heq2
          obtain ⟨hszb, -⟩ := heq2
          rw [if_pos ?_]
          refine fun h => Ne.symm hne ?_
          rw [h, ← hszb, ← hrem1, List.drop_drop, interiorU48]

/-- A DESC table consisting of well-formed entries followed by an entry
with an unknown type byte is rejected: the loop reaches the bad entry and
the `switch` falls to the `default: return false` branch. -/
theorem freadTemplateDesc_bad_type (pre : List descEntry) (ty : Nat)
    (rest : List Nat) (hwf : ∀ e ∈ pre, entryWF e)
    (hL : 17 + (serializeEntries pre).length + rest.length < 2 ^ 48)
    (h1 : ty ≠ 1) (h2 : ty ≠ 2) (h3 : ty ≠ 3) (h5 : ty ≠ 5) (h6 : ty ≠ 6) :
    freadTemplateDesc (mkBadTypeFile pre ty rest) = none := by
  have hlen17 : 17 + (serializeEntries pre).length + rest.length
      = 16 + (serializeEntries pre ++ ty :: rest).length := by
    simp
    omega
  have hshape : mkBadTypeFile pre ty rest
      = [68, 69, 83, 67] ++
        (encodeLE 6 (16 + (serializeEntries pre ++ ty :: rest).length) ++
          ((serializeEntries pre ++ ty :: rest) ++
            encodeLE 6 (16 + (serializeEntries pre ++ ty :: rest).length))) := by
    rw [mkBadTypeFile, hlen17]
    simp [List.append_assoc]
  rw [hshape, freadTemplateDesc_desc_only _ (by rw [← hlen17]; exact hL)]
  rw [show ((serializeEntries pre ++ ty :: rest) ++
      encodeLE 6 (16 + (serializeEntries pre ++ ty :: rest).length))
      = serializeEntries pre ++ (ty ::
        (rest ++ encodeLE 6 (16 + (serializeEntries pre ++ ty :: rest).length)))
      from by simp [List.append_assoc]]
  rw [show (serializeEntries pre ++ ty :: rest).length + 6
      = (serializeEntries pre).length + (1 + rest.length + 6) from by simp; omega]
  rw [parseEntries_serialized pre _ (1 + rest.length + 6) 0 emptyDescTable hwf
    (by omega)]
  rw [parseEntries.eq_def]
  rw [if_pos (by omega)]
  rw [dif_pos (by simp)]
  simp only [List.getD_cons_zero, List.drop_succ_cons, List.drop_zero]
  rw [dif_pos (by simp [encodeLE_length])]
  rw [if_neg (by simp [h1, h5]), if_neg h2, if_neg (by simp [h3, h6])]

/-- C7: `freadTemplateDesc` fails on every input whose interior 6-byte
`desc_len` (following the `"DESC"` magic) decodes differently from the
6-byte `desc_len` at the end of the file, and on every DESC table
containing an entry whose type byte is not one of 1, 2, 3, 5, 6 (the
entry is reached after any list of well-formed entries, with arbitrary
bytes following the bad type byte). -/
theorem freadTemplateDesc_rejections :
    (∀ f : List Nat, interiorU48 f ≠ tailU48 f → freadTemplateDesc f = none)
    ∧ (∀ (pre : List descEntry) (ty : Nat) (rest : List Nat),
        (∀ e ∈ pre, entryWF e) →
        17 + (serializeEntries pre).length + rest.length < 2 ^ 48 →
        ty ≠ 1 → ty ≠ 2 → ty ≠ 3 → ty ≠ 5 → ty ≠ 6 →
        freadTemplateDesc (mkBadTypeFile pre ty rest) = none) :=
  ⟨freadTemplateDesc_len_mismatch, freadTemplateDesc_bad_type⟩

/-- Witness for C7: a 6-byte file whose tail length field (1) disagrees
with its (empty) interior, and a one-entry DESC table with type byte
`0x42`. -/
theorem freadTemplateDesc_rejections_witness :
    freadTemplateDesc [1, 0, 0, 0, 0, 0] = none
    ∧ freadTemplateDesc (mkBadTypeFile [] 66 []) = none :=
  ⟨freadTemplateDesc_rejections.1 [1, 0, 0, 0, 0, 0]
      (by simp [interiorU48, tailU48, templateU48ToU64, readLittleEndianValue,
        readLEAux]),
   freadTemplateDesc_rejections.2 [] 66 [] (by simp)
      (by simp [serializeEntries])
      (by norm_num) (by norm_num) (by norm_num) (by norm_num) (by norm_num)⟩

end Pigdo
